import Mathlib

/-!
# RustCache, verified model

A shallow embedding of the RustCache server core: the RESP wire codec
(`src/server/src/resp.rs`), the key-value store with TTL expiration
(`src/server/src/db.rs`), and the command dispatcher
(`src/server/src/commands.rs`).  Byte streams are modelled as `List Nat`
(each element a byte value), Rust `Instant`/`Duration` as nanosecond
counts (`Nat`), and Rust `i64` arithmetic as `Int` with explicit range
clamping.  Every definition follows the corresponding Rust function; the
doc comment of each names its source.
-/

namespace RustCache

/-- Byte sequences (`Vec<u8>` / `&[u8]` in the source): a list of byte
values.  Rust `String`s are represented by their UTF-8 byte content. -/
abbrev Bytes := List Nat

/-- The bytes of an ASCII string literal (for ASCII text every `Char` is
one byte, so this is its UTF-8 content). -/
def ascii (s : String) : Bytes := s.data.map Char.toNat

/-! ## Decimal text and `i64` parsing

Rust renders integers with `to_string` and parses them with
`str::parse::<i64>` / `::<isize>` (on a 64-bit target `isize` = `i64`).
-/

/-- Base-10 digits of `n` as ASCII bytes, least significant first
(repeated division by 10, on a step budget of at least `n`). -/
def natDigitsF : Nat → Nat → Bytes
  | 0, _ => []
  | _ + 1, 0 => []
  | fuel + 1, n => (n % 10 + 48) :: natDigitsF fuel (n / 10)

/-- Decimal digits of `n`, most significant first, as ASCII bytes;
`0` renders as `"0"` (`u64::to_string` behaviour). -/
def natToDecimal (n : Nat) : Bytes :=
  if n = 0 then [48] else (natDigitsF n n).reverse

theorem natDigitsF_eq (fuel : Nat) :
    ∀ n : Nat, n ≤ fuel → natDigitsF fuel n = (Nat.digits 10 n).map (· + 48) := by
  induction fuel with
  | zero =>
      intro n hn
      have : n = 0 := Nat.le_zero.mp hn
      subst this
      simp [natDigitsF]
  | succ f ih =>
      intro n hn
      cases n with
      | zero => simp [natDigitsF]
      | succ m =>
          have hpos : 0 < m + 1 := Nat.succ_pos m
          have hdiv : (m + 1) / 10 ≤ f := by
            have : (m + 1) / 10 < m + 1 := Nat.div_lt_self hpos (by norm_num)
            omega
          rw [Nat.digits_def' (by norm_num : 1 < 10) hpos]
          simp only [natDigitsF, List.map_cons]
          rw [ih _ hdiv]

/-- `natToDecimal` agrees with the `Nat.digits` presentation used by
the round-trip lemmas. -/
theorem natToDecimal_eq (n : Nat) :
    natToDecimal n = if n = 0 then [48] else (Nat.digits 10 n).reverse.map (· + 48) := by
  unfold natToDecimal
  by_cases h : n = 0
  · simp [h]
  · rw [if_neg h, if_neg h, natDigitsF_eq n n le_rfl, List.map_reverse]

/-- `i64::to_string`: optional leading `-` then the decimal magnitude. -/
def intToDecimal (i : Int) : Bytes :=
  if i < 0 then 45 :: natToDecimal i.natAbs else natToDecimal i.toNat

/-- Accumulate ASCII decimal digits into a number (most significant
first); any non-digit byte rejects the whole string. -/
def digitsToNatAux : Bytes → Nat → Option Nat
  | [], acc => some acc
  | b :: r, acc =>
      if 48 ≤ b ∧ b ≤ 57 then digitsToNatAux r (acc * 10 + (b - 48)) else none

/-- Parse a non-empty all-digit byte string as a natural number. -/
def digitsToNat (l : Bytes) : Option Nat :=
  if l = [] then none else digitsToNatAux l 0

/-- Smallest `i64` value. -/
def i64Min : Int := -(2 ^ 63)

/-- Largest `i64` value. -/
def i64Max : Int := 2 ^ 63 - 1

/-- `str::parse::<i64>` on the byte content of a string: an optional
`+`/`-` sign, one or more ASCII digits, and a range check (Rust's
per-digit checked arithmetic fails exactly when the magnitude leaves the
`i64` range).  Bytes ≥ 0x80 (any non-ASCII character) are never digits,
so byte-level parsing agrees with Rust's `char`-level parsing. -/
def parseI64 (l : Bytes) : Option Int :=
  match l with
  | [] => none
  | b :: r =>
      if b = 43 then
        (digitsToNat r).bind fun n =>
          if n ≤ 2 ^ 63 - 1 then some (n : Int) else none
      else if b = 45 then
        (digitsToNat r).bind fun n =>
          if n ≤ 2 ^ 63 then some (-(n : Int)) else none
      else
        (digitsToNat (b :: r)).bind fun n =>
          if n ≤ 2 ^ 63 - 1 then some (n : Int) else none

/-! ### Decimal round-trip lemmas -/

theorem digitsToNatAux_append (a b : Bytes) (acc : Nat) :
    digitsToNatAux (a ++ b) acc =
      (digitsToNatAux a acc).bind fun m => digitsToNatAux b m := by
  induction a generalizing acc with
  | nil => simp [digitsToNatAux]
  | cons x r ih =>
      by_cases h : 48 ≤ x ∧ x ≤ 57 <;> simp [digitsToNatAux, h, ih]

theorem digitsToNatAux_digits (ds : List Nat) (acc : Nat)
    (hd : ∀ d ∈ ds, d < 10) :
    digitsToNatAux (ds.reverse.map (· + 48)) acc =
      some (acc * 10 ^ ds.length + Nat.ofDigits 10 ds) := by
  induction ds generalizing acc with
  | nil => simp [digitsToNatAux]
  | cons d rest ih =>
      have hdlt : d < 10 := hd d (List.mem_cons_self d rest)
      have hrest : ∀ x ∈ rest, x < 10 := fun x hx => hd x (List.mem_cons_of_mem d hx)
      have : (d :: rest).reverse.map (· + 48) =
          rest.reverse.map (· + 48) ++ [d + 48] := by
        simp
      rw [this, digitsToNatAux_append, ih acc hrest]
      have hdig : 48 ≤ d + 48 ∧ d + 48 ≤ 57 := ⟨Nat.le_add_left _ _, by omega⟩
      simp only [Option.some_bind, digitsToNatAux, hdig, and_self, if_true,
        Nat.add_sub_cancel]
      rw [Nat.ofDigits_cons]
      congr 1
      simp only [Nat.cast_id, List.length_cons]
      ring

theorem digitsToNat_natToDecimal (n : Nat) :
    digitsToNat (natToDecimal n) = some n := by
  by_cases h : n = 0
  · subst h; decide
  · have hne : Nat.digits 10 n ≠ [] := Nat.digits_ne_nil_iff_ne_zero.mpr h
    have hd : ∀ d ∈ Nat.digits 10 n, d < 10 := fun d hdm =>
      Nat.digits_lt_base (by norm_num) hdm
    have haux := digitsToNatAux_digits (Nat.digits 10 n) 0 hd
    rw [Nat.zero_mul, Nat.zero_add, Nat.ofDigits_digits] at haux
    have hnonnil : ¬ (Nat.digits 10 n).reverse.map (· + 48) = [] := by
      simp [hne]
    rw [natToDecimal_eq]
    unfold digitsToNat
    simp only [h, if_false, hnonnil]
    exact haux

theorem natToDecimal_digits (n : Nat) :
    ∀ b ∈ natToDecimal n, 48 ≤ b ∧ b ≤ 57 := by
  intro b hb
  rw [natToDecimal_eq] at hb
  by_cases h : n = 0
  · simp [h] at hb; omega
  · simp only [h, if_false, List.mem_map, List.mem_reverse] at hb
    obtain ⟨d, hdm, rfl⟩ := hb
    have := Nat.digits_lt_base (by norm_num) hdm
    omega

theorem intToDecimal_bytes (i : Int) :
    ∀ b ∈ intToDecimal i, (48 ≤ b ∧ b ≤ 57) ∨ b = 45 := by
  intro b hb
  unfold intToDecimal at hb
  by_cases h : i < 0
  · simp only [h, if_true, List.mem_cons] at hb
    rcases hb with rfl | hb
    · right; rfl
    · left; exact natToDecimal_digits _ b hb
  · simp only [h, if_false] at hb
    left; exact natToDecimal_digits _ b hb

theorem parseI64_intToDecimal (i : Int) (hlo : i64Min ≤ i) (hhi : i ≤ i64Max) :
    parseI64 (intToDecimal i) = some i := by
  simp only [i64Min, i64Max] at hlo hhi
  unfold intToDecimal
  by_cases h : i < 0
  · have hmag : i.natAbs ≤ 2 ^ 63 := by omega
    simp only [h, if_true, parseI64]
    rw [digitsToNat_natToDecimal]
    simp only [Option.some_bind]
    rw [if_pos hmag]
    have habs : -(i.natAbs : Int) = i := by omega
    rw [habs]
    norm_num
  · have h0 : 0 ≤ i := le_of_not_lt h
    have hmag : i.toNat ≤ 2 ^ 63 - 1 := by omega
    simp only [h, if_false]
    cases hl : natToDecimal i.toNat with
    | nil =>
        exfalso
        have := digitsToNat_natToDecimal i.toNat
        rw [hl] at this
        simp [digitsToNat] at this
    | cons b r =>
        have hb : 48 ≤ b ∧ b ≤ 57 :=
          natToDecimal_digits i.toNat b (hl ▸ List.mem_cons_self b r)
        have hb43 : ¬ b = 43 := by omega
        have hb45 : ¬ b = 45 := by omega
        have hparse := digitsToNat_natToDecimal i.toNat
        rw [hl] at hparse
        simp only [parseI64]
        rw [if_neg hb43, if_neg hb45, hparse]
        simp only [Option.some_bind]
        rw [if_pos hmag]
        congr 1
        omega

theorem parseI64_digits (l : Bytes) (c : Int) (h : parseI64 l = some c) :
    ∀ b ∈ l, b ≤ 127 := by
  have haux : ∀ (r : Bytes) (acc n : Nat), digitsToNatAux r acc = some n →
      ∀ b ∈ r, 48 ≤ b ∧ b ≤ 57 := by
    intro r
    induction r with
    | nil => intro acc n _ b hb; simp at hb
    | cons x t ih =>
        intro acc n hparse b hb
        unfold digitsToNatAux at hparse
        by_cases hx : 48 ≤ x ∧ x ≤ 57
        · simp only [hx, and_self, if_true] at hparse
          rcases List.mem_cons.mp hb with rfl | hbt
          · exact hx
          · exact ih _ _ hparse b hbt
        · simp [hx] at hparse
  have hnat : ∀ (r : Bytes) (n : Nat), digitsToNat r = some n →
      ∀ b ∈ r, 48 ≤ b ∧ b ≤ 57 := by
    intro r n hr
    cases r with
    | nil => intro b hb; simp at hb
    | cons x t => exact haux _ _ _ hr
  intro b hb
  unfold parseI64 at h
  cases l with
  | nil => simp at hb
  | cons x r =>
      by_cases hx43 : x = 43
      · simp only [hx43, if_true] at h
        rcases Option.bind_eq_some.mp h with ⟨n, hn, _⟩
        rcases List.mem_cons.mp hb with rfl | hbt
        · omega
        · have := hnat r n hn b hbt; omega
      · by_cases hx45 : x = 45
        · simp only [hx43, hx45, if_false, if_true] at h
          rcases Option.bind_eq_some.mp h with ⟨n, hn, _⟩
          rcases List.mem_cons.mp hb with rfl | hbt
          · omega
          · have := hnat r n hn b hbt; omega
        · simp only [hx43, hx45, if_false] at h
          rcases Option.bind_eq_some.mp h with ⟨n, hn, _⟩
          have := hnat _ n hn b hb
          omega

/-! ## UTF-8

`String::from_utf8_lossy` leaves well-formed UTF-8 untouched and
replaces ill-formed sequences with U+FFFD (bytes `EF BF BD`).  We model
byte-level UTF-8 well-formedness with the standard table (RFC 3629:
lead-byte ranges `00–7F`, `C2–DF`, `E0`, `E1–EC`, `ED`, `EE–EF`, `F0`,
`F1–F3`, `F4`, each with its continuation-byte ranges). -/

/-- A UTF-8 continuation byte (`80–BF`). -/
def utf8Cont (b : Nat) : Bool := 128 ≤ b ∧ b ≤ 191

/-- Number of continuation bytes of the well-formed UTF-8 sequence led
by `b` followed by `r`, or `none` if no well-formed sequence starts
there. -/
def utf8SeqLen (b : Nat) (r : Bytes) : Option Nat :=
  if b ≤ 127 then some 0
  else if 194 ≤ b ∧ b ≤ 223 then
    match r with
    | c1 :: _ => if utf8Cont c1 then some 1 else none
    | _ => none
  else if b = 224 then
    match r with
    | c1 :: c2 :: _ =>
        if (160 ≤ c1 ∧ c1 ≤ 191) ∧ utf8Cont c2 then some 2 else none
    | _ => none
  else if 225 ≤ b ∧ b ≤ 236 then
    match r with
    | c1 :: c2 :: _ => if utf8Cont c1 ∧ utf8Cont c2 then some 2 else none
    | _ => none
  else if b = 237 then
    match r with
    | c1 :: c2 :: _ =>
        if (128 ≤ c1 ∧ c1 ≤ 159) ∧ utf8Cont c2 then some 2 else none
    | _ => none
  else if 238 ≤ b ∧ b ≤ 239 then
    match r with
    | c1 :: c2 :: _ => if utf8Cont c1 ∧ utf8Cont c2 then some 2 else none
    | _ => none
  else if b = 240 then
    match r with
    | c1 :: c2 :: c3 :: _ =>
        if (144 ≤ c1 ∧ c1 ≤ 191) ∧ utf8Cont c2 ∧ utf8Cont c3 then some 3 else none
    | _ => none
  else if 241 ≤ b ∧ b ≤ 243 then
    match r with
    | c1 :: c2 :: c3 :: _ =>
        if utf8Cont c1 ∧ utf8Cont c2 ∧ utf8Cont c3 then some 3 else none
    | _ => none
  else if b = 244 then
    match r with
    | c1 :: c2 :: c3 :: _ =>
        if (128 ≤ c1 ∧ c1 ≤ 143) ∧ utf8Cont c2 ∧ utf8Cont c3 then some 3 else none
    | _ => none
  else none

/-- Byte-level UTF-8 well-formedness, structured on a step budget
(each step consumes at least one byte, so a budget of `l.length`
reaches the end of `l`; the wrapper `utf8Valid` supplies it). -/
def utf8ValidF : Nat → Bytes → Bool
  | _, [] => true
  | 0, _ :: _ => false
  | fuel + 1, b :: r =>
      match utf8SeqLen b r with
      | some n => utf8ValidF fuel (r.drop n)
      | none => false

/-- Byte-level UTF-8 well-formedness. -/
def utf8Valid (l : Bytes) : Bool := utf8ValidF l.length l

/-- `String::from_utf8_lossy` as byte content, on a step budget:
well-formed sequences are copied and an ill-formed position is replaced
by U+FFFD (`EF BF BD`), resuming at the next byte.  (On well-formed
input this is the identity, which is the only case the claims depend
on; Rust's exact resynchronisation on ill-formed input differs only in
how many bytes one replacement consumes.) -/
def fromUtf8LossyF : Nat → Bytes → Bytes
  | _, [] => []
  | 0, _ :: _ => []
  | fuel + 1, b :: r =>
      match utf8SeqLen b r with
      | some n => b :: (r.take n ++ fromUtf8LossyF fuel (r.drop n))
      | none => 239 :: 191 :: 189 :: fromUtf8LossyF fuel r

/-- `String::from_utf8_lossy`, as byte content. -/
def fromUtf8Lossy (l : Bytes) : Bytes := fromUtf8LossyF l.length l

theorem utf8ValidF_fuel (fuel : Nat) :
    ∀ l : Bytes, l.length ≤ fuel → utf8ValidF fuel l = utf8Valid l := by
  induction fuel using Nat.strong_induction_on with
  | _ fuel ih =>
      intro l hl
      cases l with
      | nil => cases fuel <;> rfl
      | cons b r =>
          cases fuel with
          | zero => simp at hl
          | succ f =>
              have hr : r.length ≤ f := by
                simp only [List.length_cons] at hl; omega
              show utf8ValidF (f + 1) (b :: r) = utf8ValidF (b :: r).length (b :: r)
              simp only [List.length_cons, utf8ValidF]
              cases hs : utf8SeqLen b r with
              | none => rfl
              | some n =>
                  have hd : (r.drop n).length ≤ f := by
                    simp only [List.length_drop]; omega
                  have hd' : (r.drop n).length ≤ r.length := by
                    simp only [List.length_drop]; omega
                  dsimp only
                  rw [ih f (by omega) _ hd, ih r.length (by omega) _ hd']

theorem fromUtf8LossyF_fuel (fuel : Nat) :
    ∀ l : Bytes, l.length ≤ fuel → fromUtf8LossyF fuel l = fromUtf8Lossy l := by
  induction fuel using Nat.strong_induction_on with
  | _ fuel ih =>
      intro l hl
      cases l with
      | nil => cases fuel <;> rfl
      | cons b r =>
          cases fuel with
          | zero => simp at hl
          | succ f =>
              have hr : r.length ≤ f := by
                simp only [List.length_cons] at hl; omega
              show fromUtf8LossyF (f + 1) (b :: r) =
                fromUtf8LossyF (b :: r).length (b :: r)
              simp only [List.length_cons, fromUtf8LossyF]
              cases hs : utf8SeqLen b r with
              | none =>
                  dsimp only
                  rw [ih f (by omega) _ hr, ih r.length (by omega) _ le_rfl]
              | some n =>
                  have hd : (r.drop n).length ≤ f := by
                    simp only [List.length_drop]; omega
                  have hd' : (r.drop n).length ≤ r.length := by
                    simp only [List.length_drop]; omega
                  dsimp only
                  rw [ih f (by omega) _ hd, ih r.length (by omega) _ hd']

theorem fromUtf8Lossy_of_valid (l : Bytes) (h : utf8Valid l = true) :
    fromUtf8Lossy l = l := by
  suffices hgen : ∀ (fuel : Nat) (l : Bytes), l.length ≤ fuel →
      utf8Valid l = true → fromUtf8LossyF fuel l = l by
    have := hgen l.length l le_rfl h
    rwa [fromUtf8LossyF_fuel _ _ le_rfl] at this
  intro fuel
  induction fuel with
  | zero =>
      intro l hl _
      cases l with
      | nil => rfl
      | cons b r => simp at hl
  | succ f ih =>
      intro l hl hv
      cases l with
      | nil => rfl
      | cons b r =>
          have hr : r.length ≤ f := by
            simp only [List.length_cons] at hl; omega
          unfold utf8Valid at hv
          simp only [List.length_cons, utf8ValidF] at hv
          simp only [fromUtf8LossyF]
          cases hs : utf8SeqLen b r with
          | none => rw [hs] at hv; simp at hv
          | some n =>
              rw [hs] at hv
              dsimp only at hv ⊢
              have hd : (r.drop n).length ≤ f := by
                simp only [List.length_drop]; omega
              have hd' : (r.drop n).length ≤ r.length := by
                simp only [List.length_drop]; omega
              rw [utf8ValidF_fuel _ _ hd'] at hv
              rw [ih (r.drop n) hd hv, List.take_append_drop]

theorem utf8Valid_of_ascii (l : Bytes) (h : ∀ b ∈ l, b ≤ 127) :
    utf8Valid l = true := by
  induction l with
  | nil => rfl
  | cons b r ih =>
      have hb : b ≤ 127 := h b (List.mem_cons_self b r)
      have hseq : utf8SeqLen b r = some 0 := by
        unfold utf8SeqLen
        simp [hb]
      unfold utf8Valid
      simp only [List.length_cons, utf8ValidF, hseq, List.drop_zero]
      rw [utf8ValidF_fuel _ _ le_rfl]
      exact ih fun x hx => h x (List.mem_cons_of_mem b hx)

theorem fromUtf8Lossy_of_ascii (l : Bytes) (h : ∀ b ∈ l, b ≤ 127) :
    fromUtf8Lossy l = l :=
  fromUtf8Lossy_of_valid l (utf8Valid_of_ascii l h)

/-! ## Wire codec (`src/server/src/resp.rs`)

`RespValue` mirrors the Rust enum; text payloads (`String` fields) are
represented by their UTF-8 byte content.  The async reader over a
`BufReader` becomes a function from the remaining input bytes to a
result and the unconsumed tail; `io::Error`s become `Except` errors
carrying the error message. -/

/-- `enum RespValue` from `resp.rs`. -/
inductive RespValue where
  | SimpleString (s : Bytes)
  | Error (s : Bytes)
  | Integer (i : Int)
  | BulkString (b : Option Bytes)
  | Array (a : Option (List RespValue))

mutual

/-- `RespValue::encode` (`resp.rs` lines 16–55), producing the emitted
bytes.  `+` = 43, `-` = 45, `:` = 58, `$` = 36, `*` = 42, CRLF =
`13, 10`; lengths are computed from the actual payload. -/
def RespValue.encode : RespValue → Bytes
  | .SimpleString s => 43 :: (s ++ [13, 10])
  | .Error s => 45 :: (s ++ [13, 10])
  | .Integer i => 58 :: (intToDecimal i ++ [13, 10])
  | .BulkString none => [36, 45, 49, 13, 10]
  | .BulkString (some bytes) =>
      36 :: (natToDecimal bytes.length ++ [13, 10] ++ bytes ++ [13, 10])
  | .Array none => [42, 45, 49, 13, 10]
  | .Array (some values) =>
      42 :: (natToDecimal values.length ++ [13, 10] ++ RespValue.encodeList values)

/-- The concatenated encodings of a list of values (the `for v in
values { v.encode(out) }` loop of the `Array` arm). -/
def RespValue.encodeList : List RespValue → Bytes
  | [] => []
  | v :: rest => v.encode ++ RespValue.encodeList rest

end

/-- Bytes up to and including the first `\n` (`read_until(b'\n')`),
together with the unread tail; with no `\n` the whole input is consumed
(EOF behaviour of `read_until`). -/
def takeLine : Bytes → Bytes × Bytes
  | [] => ([], [])
  | b :: r =>
      if b = 10 then ([10], r)
      else
        let (line, rest) := takeLine r
        (b :: line, rest)

/-- `read_crlf_line` (`resp.rs` lines 58–69): read up to `\n`, fail on
empty input (EOF) or a line not terminated by CRLF, and strip the
terminator. -/
def readCrlfLine (input : Bytes) : Except String (Bytes × Bytes) :=
  let (buf, rest) := takeLine input
  if buf = [] then .error "EOF"
  else
    match buf.reverse with
    | 10 :: 13 :: revContent => .ok (revContent.reverse, rest)
    | _ => .error "line missing CRLF"

/-- `read_exact_crlf` (`resp.rs` lines 71–80): read exactly `len`
payload bytes, then two bytes that must be CRLF. -/
def readExactCrlf (len : Nat) (input : Bytes) : Except String (Bytes × Bytes) :=
  if input.length < len then .error "EOF"
  else
    match input.drop len with
    | a :: b :: r =>
        if a = 13 ∧ b = 10 then .ok (input.take len, r)
        else .error "bulk string missing CRLF"
    | _ => .error "EOF"

/-- The `for _ in 0..len { read_resp(reader) }` loop of the `*` arm,
abstracted over the element reader (`read_resp` at one less nesting
budget). -/
def readListWith (rd : Bytes → Except String (RespValue × Bytes)) :
    Nat → Bytes → Except String (List RespValue × Bytes)
  | 0, input => .ok ([], input)
  | n + 1, input =>
      (rd input).bind fun (v, r) =>
        (readListWith rd n r).map fun (items, r2) => (v :: items, r2)

/-- `read_resp` (`resp.rs` lines 82–131).  `fuel` bounds the nesting
depth of arrays (the Rust recursion is bounded only by input size);
every claim quantifies over sufficient fuel. -/
def readResp : Nat → Bytes → Except String (RespValue × Bytes)
  | 0, _ => .error "fuel exhausted"
  | _ + 1, [] => .error "EOF"
  | fuel + 1, p :: input =>
      if p = 43 then
        (readCrlfLine input).map fun (line, r) =>
          (.SimpleString (fromUtf8Lossy line), r)
      else if p = 45 then
        (readCrlfLine input).map fun (line, r) =>
          (.Error (fromUtf8Lossy line), r)
      else if p = 58 then
        (readCrlfLine input).bind fun (line, r) =>
          match parseI64 (fromUtf8Lossy line) with
          | some i => .ok (.Integer i, r)
          | none => .error "invalid integer"
      else if p = 36 then
        (readCrlfLine input).bind fun (line, r) =>
          match parseI64 (fromUtf8Lossy line) with
          | some len =>
              if len < 0 then .ok (.BulkString none, r)
              else
                (readExactCrlf len.toNat r).map fun (data, r2) =>
                  (.BulkString (some data), r2)
          | none => .error "invalid bulk length"
      else if p = 42 then
        (readCrlfLine input).bind fun (line, r) =>
          match parseI64 (fromUtf8Lossy line) with
          | some len =>
              if len < 0 then .ok (.Array none, r)
              else
                (readListWith (readResp fuel) len.toNat r).map fun (items, r2) =>
                  (.Array (some items), r2)
          | none => .error "invalid array length"
      else .error "invalid RESP prefix"

/-! ## Codec round-trip -/

/-- No embedded CR or LF byte (the spec's side condition on text
variants; a Rust `String` can hold them, but then the encoded frame is
not decodable). -/
def noCRLF (s : Bytes) : Bool := s.all fun b => decide (¬ b = 13 ∧ ¬ b = 10)

mutual

/-- Facts the Rust types guarantee about every in-memory `RespValue`:
text payloads are valid UTF-8 with (per the claim's hypothesis) no
embedded CR/LF, `Integer` carries an `i64`, and payload lengths fit in
`usize`/`isize` (< 2⁶³ on a 64-bit target). -/
def respWf : RespValue → Bool
  | .SimpleString s => noCRLF s && utf8Valid s
  | .Error s => noCRLF s && utf8Valid s
  | .Integer i => decide (i64Min ≤ i ∧ i ≤ i64Max)
  | .BulkString none => true
  | .BulkString (some b) => decide (b.length ≤ 2 ^ 63 - 1)
  | .Array none => true
  | .Array (some vs) => decide (vs.length ≤ 2 ^ 63 - 1) && respListWf vs

/-- `respWf` for every element of a list. -/
def respListWf : List RespValue → Bool
  | [] => true
  | v :: rest => respWf v && respListWf rest

end

mutual

/-- Array-nesting depth of a value (the decoder consumes one unit of
fuel per nesting level). -/
def respDepth : RespValue → Nat
  | .Array (some vs) => respListDepth vs + 1
  | _ => 1

/-- Maximum depth over a list of values. -/
def respListDepth : List RespValue → Nat
  | [] => 0
  | v :: rest => max (respDepth v) (respListDepth rest)

end

theorem takeLine_append (s : Bytes) (rest : Bytes) (h : ∀ b ∈ s, ¬ b = 10) :
    takeLine (s ++ 10 :: rest) = (s ++ [10], rest) := by
  induction s with
  | nil => simp [takeLine]
  | cons b r ih =>
      have hb : ¬ b = 10 := h b (List.mem_cons_self b r)
      have hr := ih fun x hx => h x (List.mem_cons_of_mem b hx)
      simp [takeLine, hb, hr]

theorem readCrlfLine_spec (s rest : Bytes) (h : ∀ b ∈ s, ¬ b = 10) :
    readCrlfLine (s ++ 13 :: 10 :: rest) = .ok (s, rest) := by
  have h13 : ∀ b ∈ s ++ [13], ¬ b = 10 := by
    intro b hb
    rcases List.mem_append.mp hb with hb | hb
    · exact h b hb
    · simp only [List.mem_singleton] at hb
      omega
  have htake := takeLine_append (s ++ [13]) rest h13
  have hshape : s ++ 13 :: 10 :: rest = (s ++ [13]) ++ 10 :: rest := by simp
  unfold readCrlfLine
  rw [hshape, htake]
  have hne : ¬ ((s ++ [13]) ++ [10]) = [] := by simp
  simp only [hne, if_false]
  have hrev : ((s ++ [13]) ++ [10]).reverse = 10 :: 13 :: s.reverse := by
    simp
  rw [hrev]
  simp

theorem readExactCrlf_spec (data rest : Bytes) :
    readExactCrlf data.length (data ++ 13 :: 10 :: rest) = .ok (data, rest) := by
  unfold readExactCrlf
  have hlen : ¬ (data ++ 13 :: 10 :: rest).length < data.length := by
    simp only [List.length_append, List.length_cons]
    omega
  simp only [hlen, if_false]
  rw [List.drop_left, List.take_left]
  simp

/-! ASCII facts about the decimal renderings, feeding the lossy-decode
and line-framing side conditions. -/

theorem natToDecimal_noLF (n : Nat) : ∀ b ∈ natToDecimal n, ¬ b = 10 := by
  intro b hb
  have := natToDecimal_digits n b hb
  omega

theorem intToDecimal_noLF (i : Int) : ∀ b ∈ intToDecimal i, ¬ b = 10 := by
  intro b hb
  rcases intToDecimal_bytes i b hb with h | h <;> omega

theorem fromUtf8Lossy_natToDecimal (n : Nat) :
    fromUtf8Lossy (natToDecimal n) = natToDecimal n := by
  refine fromUtf8Lossy_of_ascii _ fun b hb => ?_
  have := natToDecimal_digits n b hb
  omega

theorem fromUtf8Lossy_intToDecimal (i : Int) :
    fromUtf8Lossy (intToDecimal i) = intToDecimal i := by
  refine fromUtf8Lossy_of_ascii _ fun b hb => ?_
  rcases intToDecimal_bytes i b hb with h | h <;> omega

theorem parseI64_natToDecimal (n : Nat) (h : n ≤ 2 ^ 63 - 1) :
    parseI64 (natToDecimal n) = some (n : Int) := by
  have hcast : intToDecimal (n : Int) = natToDecimal n := by
    unfold intToDecimal
    rw [if_neg (by omega), Int.toNat_natCast]
  have := parseI64_intToDecimal (n : Int) (by unfold i64Min; omega)
    (by unfold i64Max; omega)
  rwa [hcast] at this

theorem noCRLF_mem (s : Bytes) (h : noCRLF s = true) :
    ∀ b ∈ s, ¬ b = 13 ∧ ¬ b = 10 := by
  intro b hb
  exact of_decide_eq_true (List.all_eq_true.mp h b hb)

theorem one_le_respDepth (v : RespValue) : 1 ≤ respDepth v := by
  cases v with
  | Array a => cases a <;> simp [respDepth]
  | SimpleString s => simp [respDepth]
  | Error s => simp [respDepth]
  | Integer i => simp [respDepth]
  | BulkString b => simp [respDepth]

/-- One array level of the round-trip: if `read_resp` at budget `f`
decodes every well-formed encoding of depth ≤ `f`, the element loop
decodes the concatenated element encodings. -/
theorem readListWith_encode (f : Nat)
    (hf : ∀ (v : RespValue) (rest : Bytes), respWf v = true → respDepth v ≤ f →
      readResp f (v.encode ++ rest) = .ok (v, rest)) :
    ∀ (vs : List RespValue) (rest : Bytes), respListWf vs = true →
      respListDepth vs ≤ f →
      readListWith (readResp f) vs.length (RespValue.encodeList vs ++ rest) =
        .ok (vs, rest) := by
  intro vs
  induction vs with
  | nil =>
      intro rest _ _
      simp [RespValue.encodeList, readListWith]
  | cons v t ih =>
      intro rest hwf hdep
      simp only [respListWf, Bool.and_eq_true] at hwf
      simp only [respListDepth, max_le_iff] at hdep
      simp only [RespValue.encodeList, List.append_assoc, List.length_cons,
        readListWith]
      rw [hf v _ hwf.1 hdep.1]
      dsimp only [Except.bind]
      rw [ih _ hwf.2 hdep.2]
      rfl

/-- Codec round-trip: decoding the encoding of any well-formed value
returns that value and leaves trailing bytes unconsumed, for any fuel
at least the value's nesting depth. -/
theorem readResp_encode : ∀ (fuel : Nat) (v : RespValue) (rest : Bytes),
    respWf v = true → respDepth v ≤ fuel →
    readResp fuel (v.encode ++ rest) = .ok (v, rest) := by
  intro fuel
  induction fuel using Nat.strong_induction_on with
  | _ fuel ih =>
      intro v rest hwf hd
      cases fuel with
      | zero => exact absurd (le_trans (one_le_respDepth v) hd) (by omega)
      | succ f =>
          cases v with
          | SimpleString s =>
              simp only [respWf, Bool.and_eq_true] at hwf
              obtain ⟨hno, hval⟩ := hwf
              have hshape : (RespValue.SimpleString s).encode ++ rest =
                  43 :: (s ++ 13 :: 10 :: rest) := by
                simp [RespValue.encode]
              rw [hshape]
              simp only [readResp]
              rw [if_pos trivial,
                readCrlfLine_spec s rest fun b hb => (noCRLF_mem s hno b hb).2]
              dsimp only [Except.map]
              rw [fromUtf8Lossy_of_valid s hval]
          | Error s =>
              simp only [respWf, Bool.and_eq_true] at hwf
              obtain ⟨hno, hval⟩ := hwf
              have hshape : (RespValue.Error s).encode ++ rest =
                  45 :: (s ++ 13 :: 10 :: rest) := by
                simp [RespValue.encode]
              rw [hshape]
              simp only [readResp]
              rw [if_neg (by decide), if_pos trivial,
                readCrlfLine_spec s rest fun b hb => (noCRLF_mem s hno b hb).2]
              dsimp only [Except.map]
              rw [fromUtf8Lossy_of_valid s hval]
          | Integer i =>
              simp only [respWf] at hwf
              have hrange := of_decide_eq_true hwf
              have hshape : (RespValue.Integer i).encode ++ rest =
                  58 :: (intToDecimal i ++ 13 :: 10 :: rest) := by
                simp [RespValue.encode]
              rw [hshape]
              simp only [readResp]
              rw [if_neg (by decide), if_neg (by decide), if_pos trivial,
                readCrlfLine_spec _ _ (intToDecimal_noLF i)]
              dsimp only [Except.bind]
              rw [fromUtf8Lossy_intToDecimal,
                parseI64_intToDecimal i hrange.1 hrange.2]
          | BulkString ob =>
              cases ob with
              | none => rfl
              | some bytes =>
                  simp only [respWf] at hwf
                  have hlen := of_decide_eq_true hwf
                  have hshape : (RespValue.BulkString (some bytes)).encode ++ rest =
                      36 :: (natToDecimal bytes.length ++
                        13 :: 10 :: (bytes ++ 13 :: 10 :: rest)) := by
                    simp [RespValue.encode]
                  rw [hshape]
                  simp only [readResp]
                  rw [if_neg (by decide), if_neg (by decide), if_neg (by decide),
                    if_pos trivial, readCrlfLine_spec _ _ (natToDecimal_noLF _)]
                  dsimp only [Except.bind]
                  rw [fromUtf8Lossy_natToDecimal, parseI64_natToDecimal _ hlen]
                  dsimp only
                  rw [if_neg (by omega : ¬ ((bytes.length : Int) < 0)),
                    Int.toNat_natCast, readExactCrlf_spec]
                  rfl
          | Array oa =>
              cases oa with
              | none => rfl
              | some vs =>
                  simp only [respWf, Bool.and_eq_true] at hwf
                  obtain ⟨hlen', hwl⟩ := hwf
                  have hlen := of_decide_eq_true hlen'
                  have hdep : respListDepth vs ≤ f := by
                    simp only [respDepth] at hd
                    omega
                  have hshape : (RespValue.Array (some vs)).encode ++ rest =
                      42 :: (natToDecimal vs.length ++
                        13 :: 10 :: (RespValue.encodeList vs ++ rest)) := by
                    simp [RespValue.encode]
                  rw [hshape]
                  simp only [readResp]
                  rw [if_neg (by decide), if_neg (by decide), if_neg (by decide),
                    if_neg (by decide), if_pos trivial,
                    readCrlfLine_spec _ _ (natToDecimal_noLF _)]
                  dsimp only [Except.bind]
                  rw [fromUtf8Lossy_natToDecimal, parseI64_natToDecimal _ hlen]
                  dsimp only
                  rw [if_neg (by omega : ¬ ((vs.length : Int) < 0)),
                    Int.toNat_natCast,
                    readListWith_encode f
                      (fun w r hw hdp => ih f (by omega) w r hw hdp) vs _ hwl hdep]
                  rfl

/-! ## Key-value store (`src/server/src/db.rs`)

The two `DashMap`s become association lists observed only through
lookup; keys are the UTF-8 bytes of the Rust `String` key.  `Instant`
is a nanosecond count; each store operation receives the single instant
`now` at which it runs (`Instant::now()` reads during one call all see
this value).  Each `DashMap` method call is individually atomic in the
source; the sequential functions below chain them in program order. -/

/-- Association-list lookup (`DashMap::get` / `contains_key`). -/
def mapLookup {α : Type} : List (Bytes × α) → Bytes → Option α
  | [], _ => none
  | (k, v) :: rest, key => if k = key then some v else mapLookup rest key

/-- `DashMap::insert`: bind `key` to `v`, shadowing any earlier
binding. -/
def mapInsert {α : Type} (m : List (Bytes × α)) (key : Bytes) (v : α) :
    List (Bytes × α) := (key, v) :: m.filter fun e => ¬ e.1 = key

/-- `DashMap::remove`: drop any binding of `key`. -/
def mapErase {α : Type} (m : List (Bytes × α)) (key : Bytes) :
    List (Bytes × α) := m.filter fun e => ¬ e.1 = key

theorem mapLookup_filter_ne {α : Type} (m : List (Bytes × α)) (k k' : Bytes)
    (h : ¬ k = k') :
    mapLookup (m.filter fun e => ¬ e.1 = k) k' = mapLookup m k' := by
  induction m with
  | nil => rfl
  | cons e rest ih =>
      rw [List.filter_cons]
      by_cases he : e.1 = k
      · have hne : ¬ e.1 = k' := fun hx => h (he ▸ hx)
        cases e with
        | mk ek ev => simp_all [mapLookup]
      · cases e with
        | mk ek ev =>
            by_cases he' : ek = k'
            · simp_all [mapLookup]
            · simp_all [mapLookup]

theorem mapLookup_filter_self {α : Type} (m : List (Bytes × α)) (k : Bytes) :
    mapLookup (m.filter fun e => ¬ e.1 = k) k = none := by
  induction m with
  | nil => rfl
  | cons e rest ih =>
      rw [List.filter_cons]
      by_cases he : e.1 = k
      · cases e with
        | mk ek ev => simp_all [mapLookup]
      · cases e with
        | mk ek ev => simp_all [mapLookup]

theorem mapLookup_insert {α : Type} (m : List (Bytes × α)) (k k' : Bytes) (v : α) :
    mapLookup (mapInsert m k v) k' = if k = k' then some v else mapLookup m k' := by
  unfold mapInsert
  by_cases h : k = k'
  · simp [mapLookup, h]
  · simp only [mapLookup, h, if_false, mapLookup_filter_ne m k k' h]

theorem mapLookup_erase {α : Type} (m : List (Bytes × α)) (k k' : Bytes) :
    mapLookup (mapErase m k) k' = if k = k' then none else mapLookup m k' := by
  unfold mapErase
  by_cases h : k = k'
  · rw [if_pos h, ← h, mapLookup_filter_self]
  · rw [if_neg h, mapLookup_filter_ne m k k' h]

/-- `struct Database` (`db.rs` lines 6–10): the value map and the
expiration map (absolute deadline in nanoseconds). -/
structure Database where
  store : List (Bytes × Bytes)
  expirations : List (Bytes × Nat)
deriving DecidableEq

namespace Database

/-- `Database::new`. -/
def new : Database := ⟨[], []⟩

/-- `Database::remove_if_expired` (`db.rs` lines 20–30): if the key has
a deadline and `now >= deadline`, remove it from both maps and report
`true`. -/
def remove_if_expired (now : Nat) (db : Database) (key : Bytes) :
    Bool × Database :=
  match mapLookup db.expirations key with
  | some exp =>
      if exp ≤ now then
        (true, ⟨mapErase db.store key, mapErase db.expirations key⟩)
      else (false, db)
  | none => (false, db)

/-- `Database::get` (`db.rs` lines 32–37). -/
def get (now : Nat) (db : Database) (key : Bytes) :
    Option Bytes × Database :=
  let (expired, db1) := remove_if_expired now db key
  if expired then (none, db1) else (mapLookup db1.store key, db1)

/-- `Database::set` (`db.rs` lines 39–49); `ttl` is a duration in
nanoseconds. -/
def set (now : Nat) (db : Database) (key val : Bytes) (ttl : Option Nat) :
    Database :=
  let store1 := mapInsert db.store key val
  match ttl with
  | some dur => ⟨store1, mapInsert db.expirations key (now + dur)⟩
  | none => ⟨store1, mapErase db.expirations key⟩

/-- One iteration of the `Database::del` loop (`db.rs` lines 53–58):
remove the deadline, then remove the value, counting it if it was
present. -/
def delOne (db : Database) (key : Bytes) : Bool × Database :=
  let exp1 := mapErase db.expirations key
  match mapLookup db.store key with
  | some _ => (true, ⟨mapErase db.store key, exp1⟩)
  | none => (false, ⟨db.store, exp1⟩)

/-- `Database::del` (`db.rs` lines 51–60). -/
def del (db : Database) : List Bytes → Nat × Database
  | [] => (0, db)
  | key :: rest =>
      let (hit, db1) := delOne db key
      let (count, db2) := del db1 rest
      ((if hit then 1 else 0) + count, db2)

/-- `Database::exists` (`db.rs` lines 62–73): lazily expire each key,
then count the ones still present. -/
def existsCount (now : Nat) (db : Database) : List Bytes → Nat × Database
  | [] => (0, db)
  | key :: rest =>
      let (expired, db1) := remove_if_expired now db key
      if expired then existsCount now db1 rest
      else
        let (count, db2) := existsCount now db1 rest
        ((if (mapLookup db1.store key).isSome then 1 else 0) + count, db2)

/-- `i64::saturating_add`: exact sum clamped to the `i64` range. -/
def satAddI64 (a b : Int) : Int := max i64Min (min i64Max (a + b))

/-- `Database::incr_by` (`db.rs` lines 75–102).  The source's `loop`
returns on every path, so it runs exactly once; the UTF-8 check and the
integer parse both fail with the same message.  A parsed value is an
`i64`, the sum saturates, and the new value is stored as decimal
text. -/
def incr_by (now : Nat) (db : Database) (key : Bytes) (delta : Int) :
    Except String Int × Database :=
  let (_, db1) := remove_if_expired now db key
  match mapLookup db1.store key with
  | none =>
      (.ok delta, ⟨mapInsert db1.store key (intToDecimal delta), db1.expirations⟩)
  | some existing =>
      if utf8Valid existing then
        match parseI64 existing with
        | some curr =>
            let new_val := satAddI64 curr delta
            (.ok new_val,
              ⟨mapInsert db1.store key (intToDecimal new_val), db1.expirations⟩)
        | none => (.error "value is not an integer or out of range", db1)
      else (.error "value is not an integer or out of range", db1)

/-- `Database::expire_seconds` (`db.rs` lines 104–116).  Note the
presence test is `store.contains_key` alone — no expiration check. -/
def expire_seconds (now : Nat) (db : Database) (key : Bytes) (seconds : Int) :
    Bool × Database :=
  if (mapLookup db.store key).isNone then (false, db)
  else if seconds < 0 then
    (true, ⟨mapErase db.store key, mapErase db.expirations key⟩)
  else
    (true, ⟨db.store,
      mapInsert db.expirations key (now + seconds.toNat * 1000000000)⟩)

/-- `Database::ttl_seconds` (`db.rs` lines 118–140).  With a single
`now` per call the inner `*exp <= now` branch repeats the
`remove_if_expired` test; remaining time is whole seconds, rounded
down. -/
def ttl_seconds (now : Nat) (db : Database) (key : Bytes) :
    Int × Database :=
  let (expired, db1) := remove_if_expired now db key
  if expired then (-2, db1)
  else if (mapLookup db1.store key).isNone then (-2, db1)
  else
    match mapLookup db1.expirations key with
    | none => (-1, db1)
    | some exp =>
        if exp ≤ now then
          (-2, ⟨mapErase db1.store key, mapErase db1.expirations key⟩)
        else (((exp - now) / 1000000000 : Nat), db1)

/-- `Database::flushdb` (`db.rs` lines 142–145). -/
def flushdb (_db : Database) : Database := ⟨[], []⟩

end Database

/-! ## Command dispatcher (`src/server/src/commands.rs`) -/

/-- `resp_ok`. -/
def resp_ok : RespValue := .SimpleString (ascii "OK")

/-- `resp_err`: prefixes the message with `ERR `. -/
def resp_err (msg : Bytes) : RespValue := .Error (ascii "ERR " ++ msg)

/-- `resp_pong`. -/
def resp_pong : RespValue := .SimpleString (ascii "PONG")

/-- ASCII lowercasing of one byte (`u8::to_ascii_lowercase`). -/
def lowerAsciiByte (b : Nat) : Nat := if 65 ≤ b ∧ b ≤ 90 then b + 32 else b

/-- UTF-8 bytes of `String::push` of a code point below 0x800 (the
only case `lower_ascii` can produce: a byte value reinterpreted as a
`char`). -/
def pushCharUtf8 (c : Nat) : Bytes :=
  if c ≤ 127 then [c] else [192 + c / 64, 128 + c % 64]

/-- `lower_ascii` (`commands.rs` lines 14–20): each byte is cast to a
`char`, ASCII-lowercased, and pushed onto a `String` (so bytes ≥ 0x80
re-encode as two UTF-8 bytes). -/
def lower_ascii (bs : Bytes) : Bytes :=
  (bs.map fun b => pushCharUtf8 (lowerAsciiByte b)).flatten

/-- `str::to_ascii_lowercase` on a `String`'s UTF-8 bytes: ASCII bytes
are standalone in UTF-8, so the byte map is the char map. -/
def toAsciiLowerString (s : Bytes) : Bytes := s.map lowerAsciiByte

/-- `str::eq_ignore_ascii_case`, at the byte level. -/
def eqIgnoreAsciiCase (a b : Bytes) : Bool :=
  decide (a.map lowerAsciiByte = b.map lowerAsciiByte)

/-- `bulk_to_string_lossy` (`commands.rs` lines 22–28). -/
def bulk_to_string_lossy : RespValue → Option Bytes
  | .BulkString (some b) => some (fromUtf8Lossy b)
  | .SimpleString s => some s
  | _ => none

/-- `bulk_to_bytes` (`commands.rs` lines 30–37). -/
def bulk_to_bytes : RespValue → Option Bytes
  | .BulkString (some b) => some b
  | .SimpleString s => some s
  | _ => none

/-- `parse_set_ttl` (`commands.rs` lines 39–71); the returned TTL is a
duration in nanoseconds (`Duration::from_secs`), with negative seconds
mapped to a zero duration. -/
def parse_set_ttl : List RespValue → Except RespValue (Bytes × Bytes × Option Nat)
  | a0 :: a1 :: rest =>
      match bulk_to_string_lossy a0 with
      | none => .error (resp_err (ascii "invalid key"))
      | some key =>
          match bulk_to_bytes a1 with
          | none => .error (resp_err (ascii "invalid value"))
          | some val =>
              match rest with
              | [] => .ok (key, val, none)
              | [a2, a3] =>
                  let opt := (bulk_to_string_lossy a2).getD []
                  if eqIgnoreAsciiCase opt (ascii "EX") then
                    let secs_s := (bulk_to_string_lossy a3).getD []
                    match parseI64 secs_s with
                    | some secs =>
                        if secs < 0 then .ok (key, val, some 0)
                        else .ok (key, val, some (secs.toNat * 1000000000))
                    | none =>
                        .error (resp_err
                          (ascii "value is not an integer or out of range"))
                  else .error (resp_err (ascii "syntax error"))
              | _ => .error (resp_err (ascii "syntax error"))
  | _ => .error (resp_err (ascii "wrong number of arguments for 'set' command"))

/-- `command_to_string` (`commands.rs` lines 73–82). -/
def command_to_string : List RespValue → Option Bytes
  | [] => none
  | a :: _ =>
      match a with
      | .BulkString (some b) => some (lower_ascii b)
      | .SimpleString s => some (toAsciiLowerString s)
      | _ => none

/-- The `mget` per-key loop (`commands.rs` lines 155–162), threading
the store state. -/
def mgetLoop (now : Nat) : Database → List RespValue → List RespValue × Database
  | db, [] => ([], db)
  | db, a :: rest =>
      let key := (bulk_to_string_lossy a).getD []
      let (res, db1) := Database.get now db key
      let item : RespValue := match res with
        | some v => .BulkString (some v)
        | none => .BulkString none
      let (out, db2) := mgetLoop now db1 rest
      (item :: out, db2)

/-- The `mset` pair loop (`commands.rs` lines 169–175): each pair is
validated and stored in turn, so an invalid argument aborts after the
earlier pairs were already written.  The one-element case is
unreachable behind the even-arity check. -/
def msetLoop (now : Nat) : Database → List RespValue → RespValue × Database
  | db, [] => (resp_ok, db)
  | db, [_] => (resp_ok, db)
  | db, a0 :: a1 :: rest =>
      match bulk_to_string_lossy a0 with
      | none => (resp_err (ascii "invalid key"), db)
      | some key =>
          match bulk_to_bytes a1 with
          | none => (resp_err (ascii "invalid value"), db)
          | some val => msetLoop now (Database.set now db key val none) rest

/-- `process_command` (`commands.rs` lines 84–263), threading the store
state; `now` is the instant at which the command runs. -/
def process_command (now : Nat) (db : Database) (frame : RespValue) :
    RespValue × Database :=
  match frame with
  | .Array (some arr) =>
      if arr.isEmpty then
        (resp_err (ascii "protocol error: empty command"), db)
      else
        match command_to_string arr with
        | none => (resp_err (ascii "invalid command name"), db)
        | some cmd =>
            let args := arr.tail
            if cmd = ascii "ping" then
              match args with
              | [] => (resp_pong, db)
              | [a] =>
                  match bulk_to_bytes a with
                  | some b => (.BulkString (some b), db)
                  | none =>
                      (resp_err (ascii "wrong number of arguments for 'ping' command"), db)
              | _ => (resp_err (ascii "wrong number of arguments for 'ping' command"), db)
            else if cmd = ascii "echo" then
              match args with
              | [a] =>
                  match bulk_to_bytes a with
                  | some b => (.BulkString (some b), db)
                  | none => (.BulkString none, db)
              | _ => (resp_err (ascii "wrong number of arguments for 'echo' command"), db)
            else if cmd = ascii "set" then
              match parse_set_ttl args with
              | .ok (key, val, ttl) => (resp_ok, Database.set now db key val ttl)
              | .error e => (e, db)
            else if cmd = ascii "get" then
              match args with
              | [a] =>
                  match bulk_to_string_lossy a with
                  | some key =>
                      let (res, db1) := Database.get now db key
                      (match res with
                        | some v => .BulkString (some v)
                        | none => .BulkString none, db1)
                  | none => (resp_err (ascii "invalid key"), db)
              | _ => (resp_err (ascii "wrong number of arguments for 'get' command"), db)
            else if cmd = ascii "del" then
              if args.isEmpty then
                (resp_err (ascii "wrong number of arguments for 'del' command"), db)
              else
                let keys := args.filterMap bulk_to_string_lossy
                let (count, db1) := Database.del db keys
                (.Integer count, db1)
            else if cmd = ascii "mget" then
              if args.isEmpty then (.Array (some []), db)
              else
                let (out, db1) := mgetLoop now db args
                (.Array (some out), db1)
            else if cmd = ascii "mset" then
              if args.isEmpty ∨ ¬ args.length % 2 = 0 then
                (resp_err (ascii "wrong number of arguments for 'mset' command"), db)
              else msetLoop now db args
            else if cmd = ascii "exists" then
              if args.isEmpty then
                (resp_err (ascii "wrong number of arguments for 'exists' command"), db)
              else
                let keys := args.filterMap bulk_to_string_lossy
                let (count, db1) := Database.existsCount now db keys
                (.Integer count, db1)
            else if cmd = ascii "incr" then
              match args with
              | [a] =>
                  match bulk_to_string_lossy a with
                  | some key =>
                      let (res, db1) := Database.incr_by now db key 1
                      (match res with
                        | .ok v => .Integer v
                        | .error m => .Error (ascii ("ERR " ++ m)), db1)
                  | none => (resp_err (ascii "invalid key"), db)
              | _ => (resp_err (ascii "wrong number of arguments for 'incr' command"), db)
            else if cmd = ascii "decr" then
              match args with
              | [a] =>
                  match bulk_to_string_lossy a with
                  | some key =>
                      let (res, db1) := Database.incr_by now db key (-1)
                      (match res with
                        | .ok v => .Integer v
                        | .error m => .Error (ascii ("ERR " ++ m)), db1)
                  | none => (resp_err (ascii "invalid key"), db)
              | _ => (resp_err (ascii "wrong number of arguments for 'decr' command"), db)
            else if cmd = ascii "expire" then
              match args with
              | [a0, a1] =>
                  match bulk_to_string_lossy a0 with
                  | none => (resp_err (ascii "invalid key"), db)
                  | some key =>
                      match bulk_to_string_lossy a1 with
                      | none =>
                          (resp_err (ascii "value is not an integer or out of range"), db)
                      | some secs_s =>
                          match parseI64 secs_s with
                          | some secs =>
                              let (hit, db1) := Database.expire_seconds now db key secs
                              (.Integer (if hit then 1 else 0), db1)
                          | none =>
                              (resp_err (ascii "value is not an integer or out of range"), db)
              | _ => (resp_err (ascii "wrong number of arguments for 'expire' command"), db)
            else if cmd = ascii "ttl" then
              match args with
              | [a] =>
                  match bulk_to_string_lossy a with
                  | some key =>
                      let (t, db1) := Database.ttl_seconds now db key
                      (.Integer t, db1)
                  | none => (resp_err (ascii "invalid key"), db)
              | _ => (resp_err (ascii "wrong number of arguments for 'ttl' command"), db)
            else if cmd = ascii "persist" then
              match args with
              | [a] =>
                  match bulk_to_string_lossy a with
                  | some key =>
                      let (c, db1) := Database.existsCount now db [key]
                      if 0 < c then
                        let (g, db2) := Database.get now db1 key
                        (.Integer 1, Database.set now db2 key (g.getD []) none)
                      else (.Integer 0, db1)
                  | none => (resp_err (ascii "invalid key"), db)
              | _ => (resp_err (ascii "wrong number of arguments for 'persist' command"), db)
            else if cmd = ascii "flushdb" then
              (resp_ok, Database.flushdb db)
            else
              (.Error (ascii "ERR unknown command '" ++ cmd ++ ascii "'"), db)
  | _ => (resp_err (ascii "protocol error: expected command array"), db)

/-! ## Interleaved execution of `incr_by`

`incr_by` holds no lock between its read of the key and its insert: in
the `None` arm no guard exists, and in the `Some` arm the source
explicitly `drop(existing)`s the guard before inserting.  We model one
`incr_by(key, delta)` call as two atomic phases — the read
(`remove_if_expired` + `store.get`, recording what was seen) and the
write (parse + `store.insert`, or the error return) — and interleave
threads by an explicit schedule.  Each modeled phase is a span of
consecutive `DashMap` calls by one thread, so every run of this coarse
machine is realizable by a real thread schedule. -/

/-- Control state of one in-flight `incr_by` call. -/
inductive IncrPhase where
  | start
  | readDone (r : Option Bytes)
  | done (res : Except String Int)

/-- One thread executing `incr_by key delta`. -/
structure IncrThread where
  key : Bytes
  delta : Int
  phase : IncrPhase

/-- One atomic phase of `incr_by` (`db.rs` lines 75–102), split at the
point where the read guard is released. -/
def incrStep (now : Nat) (db : Database) (t : IncrThread) :
    Database × IncrThread :=
  match t.phase with
  | .start =>
      let db1 := (Database.remove_if_expired now db t.key).2
      (db1, { t with phase := .readDone (mapLookup db1.store t.key) })
  | .readDone r =>
      match r with
      | none =>
          (⟨mapInsert db.store t.key (intToDecimal t.delta), db.expirations⟩,
            { t with phase := .done (.ok t.delta) })
      | some existing =>
          if utf8Valid existing then
            match parseI64 existing with
            | some curr =>
                let new_val := Database.satAddI64 curr t.delta
                (⟨mapInsert db.store t.key (intToDecimal new_val),
                    db.expirations⟩,
                  { t with phase := .done (.ok new_val) })
            | none =>
                (db, { t with
                  phase := .done (.error "value is not an integer or out of range") })
          else
            (db, { t with
              phase := .done (.error "value is not an integer or out of range") })
  | .done _ => (db, t)

/-- Run the listed thread indices in order, each taking one atomic
phase. -/
def runSchedule (now : Nat) :
    List Nat → Database → List IncrThread → Database × List IncrThread
  | [], db, ts => (db, ts)
  | i :: rest, db, ts =>
      match ts.get? i with
      | some t =>
          let (db1, t1) := incrStep now db t
          runSchedule now rest db1 (ts.set i t1)
      | none => runSchedule now rest db ts

/-! ## The store-consistency invariant -/

/-- The spec's store invariant: a key absent from the value map has no
entry in the expiration map. -/
def dbInvariant (db : Database) : Prop :=
  ∀ k, mapLookup db.store k = none → mapLookup db.expirations k = none

theorem dbInvariant_erase_both (db : Database) (key : Bytes)
    (h : dbInvariant db) :
    dbInvariant ⟨mapErase db.store key, mapErase db.expirations key⟩ := by
  intro k hk
  simp only [mapLookup_erase] at hk ⊢
  by_cases hkk : key = k
  · simp [hkk]
  · simp only [hkk, if_false] at hk ⊢
    exact h k hk

theorem dbInvariant_remove_if_expired (now : Nat) (db : Database) (key : Bytes)
    (h : dbInvariant db) :
    dbInvariant (Database.remove_if_expired now db key).2 := by
  unfold Database.remove_if_expired
  cases hexp : mapLookup db.expirations key with
  | none => exact h
  | some e =>
      by_cases hle : e ≤ now
      · simpa [hle] using dbInvariant_erase_both db key h
      · simpa [hle] using h

theorem dbInvariant_set (now : Nat) (db : Database) (key val : Bytes)
    (ttl : Option Nat) (h : dbInvariant db) :
    dbInvariant (Database.set now db key val ttl) := by
  unfold Database.set
  cases ttl with
  | some dur =>
      intro k hk
      simp only [mapLookup_insert] at hk ⊢
      by_cases hkk : key = k
      · simp [hkk] at hk
      · simp only [hkk, if_false] at hk ⊢
        exact h k hk
  | none =>
      intro k hk
      simp only [mapLookup_insert, mapLookup_erase] at hk ⊢
      by_cases hkk : key = k
      · simp [hkk]
      · simp only [hkk, if_false] at hk ⊢
        exact h k hk

theorem dbInvariant_delOne (db : Database) (key : Bytes)
    (h : dbInvariant db) : dbInvariant (Database.delOne db key).2 := by
  unfold Database.delOne
  cases hs : mapLookup db.store key with
  | some v =>
      simpa using dbInvariant_erase_both db key h
  | none =>
      intro k hk
      simp only [mapLookup_erase]
      by_cases hkk : key = k
      · simp [hkk]
      · simp only [hkk, if_false]
        exact h k hk

theorem dbInvariant_del (keys : List Bytes) (db : Database)
    (h : dbInvariant db) : dbInvariant (Database.del db keys).2 := by
  induction keys generalizing db with
  | nil => exact h
  | cons key rest ih =>
      simp only [Database.del]
      exact ih _ (dbInvariant_delOne db key h)

theorem dbInvariant_existsCount (now : Nat) (keys : List Bytes) (db : Database)
    (h : dbInvariant db) : dbInvariant (Database.existsCount now db keys).2 := by
  induction keys generalizing db with
  | nil => exact h
  | cons key rest ih =>
      simp only [Database.existsCount]
      have h1 := dbInvariant_remove_if_expired now db key h
      by_cases he : (Database.remove_if_expired now db key).1
      · simpa [he] using ih _ h1
      · simpa [he] using ih _ h1

theorem dbInvariant_get (now : Nat) (db : Database) (key : Bytes)
    (h : dbInvariant db) : dbInvariant (Database.get now db key).2 := by
  unfold Database.get
  by_cases he : (Database.remove_if_expired now db key).1 <;>
    simpa [he] using dbInvariant_remove_if_expired now db key h

theorem dbInvariant_incr_by (now : Nat) (db : Database) (key : Bytes)
    (delta : Int) (h : dbInvariant db) :
    dbInvariant (Database.incr_by now db key delta).2 := by
  unfold Database.incr_by
  have h1 := dbInvariant_remove_if_expired now db key h
  set db1 := (Database.remove_if_expired now db key).2 with hdb1
  have hins : ∀ bs : Bytes,
      dbInvariant ⟨mapInsert db1.store key bs, db1.expirations⟩ := by
    intro bs k hk
    simp only [mapLookup_insert] at hk
    by_cases hkk : key = k
    · simp [hkk] at hk
    · simp only [hkk, if_false] at hk
      exact h1 k hk
  cases hs : mapLookup db1.store key with
  | none => simpa [hs] using hins _
  | some existing =>
      by_cases hu : utf8Valid existing
      · cases hp : parseI64 existing with
        | some curr => simpa [hs, hu, hp] using hins _
        | none => simpa [hs, hu, hp] using h1
      · simpa [hs, hu] using h1

theorem dbInvariant_expire_seconds (now : Nat) (db : Database) (key : Bytes)
    (seconds : Int) (h : dbInvariant db) :
    dbInvariant (Database.expire_seconds now db key seconds).2 := by
  cases hs : mapLookup db.store key with
  | none =>
      have hrw : Database.expire_seconds now db key seconds = (false, db) := by
        unfold Database.expire_seconds
        rw [hs]
        rfl
      rw [hrw]
      exact h
  | some v =>
      by_cases hneg : seconds < 0
      · have hrw : Database.expire_seconds now db key seconds =
            (true, ⟨mapErase db.store key, mapErase db.expirations key⟩) := by
          unfold Database.expire_seconds
          rw [hs]
          simp [hneg]
        rw [hrw]
        exact dbInvariant_erase_both db key h
      · have hrw : Database.expire_seconds now db key seconds =
            (true, ⟨db.store,
              mapInsert db.expirations key (now + seconds.toNat * 1000000000)⟩) := by
          unfold Database.expire_seconds
          rw [hs]
          simp [hneg]
        rw [hrw]
        intro k hk
        simp only [mapLookup_insert]
        by_cases hkk : key = k
        · rw [← hkk, hs] at hk
          exact absurd hk (by simp)
        · simp only [hkk, if_false]
          exact h k hk

theorem dbInvariant_ttl_seconds (now : Nat) (db : Database) (key : Bytes)
    (h : dbInvariant db) : dbInvariant (Database.ttl_seconds now db key).2 := by
  unfold Database.ttl_seconds
  have h1 := dbInvariant_remove_if_expired now db key h
  set db1 := (Database.remove_if_expired now db key).2 with hdb1
  by_cases he : (Database.remove_if_expired now db key).1
  · simpa [he] using h1
  · simp only [he, if_false, Bool.false_eq_true]
    by_cases hn : (mapLookup db1.store key).isNone
    · simpa [hn] using h1
    · simp only [hn, if_false]
      cases hexp : mapLookup db1.expirations key with
      | none => simpa [hexp] using h1
      | some e =>
          by_cases hle : e ≤ now
          · simpa [hexp, hle] using dbInvariant_erase_both db1 key h1
          · simpa [hexp, hle] using h1

theorem dbInvariant_flushdb (db : Database) :
    dbInvariant (Database.flushdb db) := fun _ _ => rfl

/-! ## Claims -/

/-- C1, counterexample: `expire_seconds` consults only physical
presence (`store.contains_key`), never the deadline.  At `now = 10` the
key `k`'s deadline 5 has passed, yet `expireSeconds(k, 100)` returns
`true` — the claim says it must return `false` — and installs a fresh
deadline. -/
theorem C1_counterexample :
    5 ≤ 10 ∧
    (Database.expire_seconds 10 ⟨[(ascii "k", ascii "v")], [(ascii "k", 5)]⟩
      (ascii "k") 100).1 = true ∧
    mapLookup (Database.expire_seconds 10
      ⟨[(ascii "k", ascii "v")], [(ascii "k", 5)]⟩ (ascii "k") 100).2.expirations
      (ascii "k") = some (10 + 100 * 1000000000) :=
  ⟨by omega, rfl, rfl⟩

/-- C1, amended: for a key whose deadline `e` has passed (`e ≤ now`),
`get`, `exists`, `ttlSeconds` and `incrBy` behave as if the key were
absent (removing it lazily), but `expireSeconds` and `del` act on
physical presence alone: on a still-present expired key,
`expireSeconds` returns `true` and installs a new deadline, and `del`
counts the key as deleted. -/
theorem C1_amended (now : Nat) (db : Database) (k : Bytes) (e : Nat) (d s : Int)
    (hexp : mapLookup db.expirations k = some e) (hle : e ≤ now) :
    (Database.get now db k).1 = none ∧
    (Database.existsCount now db [k]).1 = 0 ∧
    (Database.ttl_seconds now db k).1 = -2 ∧
    (Database.incr_by now db k d).1 = .ok d ∧
    ((mapLookup db.store k).isSome = true → 0 ≤ s →
      (Database.expire_seconds now db k s).1 = true ∧
      mapLookup (Database.expire_seconds now db k s).2.expirations k =
        some (now + s.toNat * 1000000000)) ∧
    ((mapLookup db.store k).isSome = true → (Database.del db [k]).1 = 1) := by
  have hrem : Database.remove_if_expired now db k =
      (true, ⟨mapErase db.store k, mapErase db.expirations k⟩) := by
    unfold Database.remove_if_expired
    rw [hexp]
    simp [hle]
  refine ⟨?_, ?_, ?_, ?_, ?_, ?_⟩
  · unfold Database.get
    rw [hrem]
    rfl
  · unfold Database.existsCount
    rw [hrem]
    rfl
  · unfold Database.ttl_seconds
    rw [hrem]
    rfl
  · unfold Database.incr_by
    rw [hrem]
    have : mapLookup (mapErase db.store k) k = none := by
      rw [mapLookup_erase]
      simp
    dsimp only
    rw [this]
  · intro hsome hs
    cases hlk : mapLookup db.store k with
    | none => rw [hlk] at hsome; exact absurd hsome (by simp)
    | some v =>
        have hrw : Database.expire_seconds now db k s =
            (true, ⟨db.store,
              mapInsert db.expirations k (now + s.toNat * 1000000000)⟩) := by
          have hns : ¬ s < 0 := by omega
          unfold Database.expire_seconds
          rw [hlk]
          simp [hns]
        rw [hrw]
        constructor
        · rfl
        · rw [mapLookup_insert]
          simp
  · intro hsome
    cases hlk : mapLookup db.store k with
    | none => rw [hlk] at hsome; exact absurd hsome (by simp)
    | some v =>
        have hrw : Database.delOne db k =
            (true, ⟨mapErase db.store k, mapErase db.expirations k⟩) := by
          unfold Database.delOne
          rw [hlk]
        unfold Database.del
        rw [hrw]
        rfl

/-- C1, witness for the amended theorem at `now = 10`, deadline 5. -/
theorem C1_witness :
    (Database.get 10 ⟨[(ascii "k", ascii "v")], [(ascii "k", 5)]⟩ (ascii "k")).1 =
      none ∧
    (Database.del ⟨[(ascii "k", ascii "v")], [(ascii "k", 5)]⟩ [ascii "k"]).1 = 1 :=
  ⟨(C1_amended 10 ⟨[(ascii "k", ascii "v")], [(ascii "k", 5)]⟩ (ascii "k") 5 7 100
      rfl (by omega)).1,
    (C1_amended 10 ⟨[(ascii "k", ascii "v")], [(ascii "k", 5)]⟩ (ascii "k") 5 7 100
      rfl (by omega)).2.2.2.2.2 rfl⟩

/-- C2: the claim fails on the code.  `incr_by` holds no lock between
reading the key and inserting the new value, so under the schedule
read₀, read₁, write₀, write₁ two concurrent `incrBy(k, 1)` calls on a
fresh key both observe the key absent, both store `"1"`, and both
return 1: the final stored value is `"1"`, not the `"2"` the claim
requires for N = 2 — a lost update. -/
theorem C2_lost_update :
    (runSchedule 0 [0, 1, 0, 1] Database.new
        [⟨ascii "k", 1, .start⟩, ⟨ascii "k", 1, .start⟩]).1.store =
      [(ascii "k", ascii "1")] ∧
    (runSchedule 0 [0, 1, 0, 1] Database.new
        [⟨ascii "k", 1, .start⟩, ⟨ascii "k", 1, .start⟩]).2 =
      [⟨ascii "k", 1, .done (.ok 1)⟩, ⟨ascii "k", 1, .done (.ok 1)⟩] ∧
    ¬ ascii "1" = ascii "2" :=
  ⟨rfl, rfl, by decide⟩

/-- C3, counterexample: at `now = 10` the key `k` (deadline 5) is
logically expired — `ttlSeconds` reports −2 — yet `del [k]` returns 1:
the stale entry counts toward the deletion count, contradicting the
claim that it must not. -/
theorem C3_counterexample :
    (Database.ttl_seconds 10 ⟨[(ascii "k", ascii "v")], [(ascii "k", 5)]⟩
      (ascii "k")).1 = -2 ∧
    (Database.del ⟨[(ascii "k", ascii "v")], [(ascii "k", 5)]⟩ [ascii "k"]).1 = 1 :=
  ⟨rfl, rfl⟩

/-- One `del` iteration, in closed form: the hit flag is physical
presence, the deadline is dropped either way. -/
theorem delOne_eq (db : Database) (key : Bytes) :
    Database.delOne db key =
      ((mapLookup db.store key).isSome,
        ⟨if (mapLookup db.store key).isSome then mapErase db.store key
          else db.store,
          mapErase db.expirations key⟩) := by
  unfold Database.delOne
  cases mapLookup db.store key <;> simp

/-- Deletion never consults deadlines: the count and the resulting
value map do not depend on the expiration map at all. -/
theorem del_ignores_expirations :
    ∀ (keys : List Bytes) (s : List (Bytes × Bytes)) (e e' : List (Bytes × Nat)),
      (Database.del ⟨s, e⟩ keys).1 = (Database.del ⟨s, e'⟩ keys).1 ∧
      (Database.del ⟨s, e⟩ keys).2.store = (Database.del ⟨s, e'⟩ keys).2.store := by
  intro keys
  induction keys with
  | nil => exact fun s e e' => ⟨rfl, rfl⟩
  | cons key rest ih =>
      intro s e e'
      simp only [Database.del, delOne_eq]
      by_cases hs : (mapLookup s key).isSome = true
      · have := ih (mapErase s key) (mapErase e key) (mapErase e' key)
        simp [hs, this.1, this.2]
      · have := ih s (mapErase e key) (mapErase e' key)
        simp [hs, this.1, this.2]

/-- C3, amended: `del` returns the number of keys whose entry was
physically present in the value map when the loop reached them,
independent of any deadline: the count is unchanged under every
substitution of the expiration map, and for one key it is exactly the
physical-presence indicator. -/
theorem C3_amended :
    (∀ (keys : List Bytes) (s : List (Bytes × Bytes)) (e e' : List (Bytes × Nat)),
      (Database.del ⟨s, e⟩ keys).1 = (Database.del ⟨s, e'⟩ keys).1) ∧
    (∀ (db : Database) (k : Bytes),
      (Database.del db [k]).1 =
        if (mapLookup db.store k).isSome then 1 else 0) := by
  constructor
  · exact fun keys s e e' => (del_ignores_expirations keys s e e').1
  · intro db k
    simp only [Database.del, delOne_eq]
    by_cases hs : (mapLookup db.store k).isSome = true <;>
      simp [Database.del, hs]

/-- C4, counterexample: `MSET a 1 ⟨Integer 0⟩ x` has an even argument
count, so the arity check passes; the loop stores `a ↦ "1"`, then the
type-invalid third argument aborts with an error reply — the store has
changed although an error was returned, contradicting the claim that
any MSET error reply leaves the store completely unchanged. -/
theorem C4_counterexample :
    (process_command 0 Database.new (.Array (some
      [.BulkString (some (ascii "mset")), .BulkString (some (ascii "a")),
        .BulkString (some (ascii "1")), .Integer 0,
        .BulkString (some (ascii "x"))]))).1 = resp_err (ascii "invalid key") ∧
    mapLookup (process_command 0 Database.new (.Array (some
      [.BulkString (some (ascii "mset")), .BulkString (some (ascii "a")),
        .BulkString (some (ascii "1")), .Integer 0,
        .BulkString (some (ascii "x"))]))).2.store (ascii "a") =
      some (ascii "1") ∧
    mapLookup Database.new.store (ascii "a") = none :=
  ⟨rfl, rfl, rfl⟩

/-- C4, amended: MSET's arity validation happens before any store
mutation — an empty or odd argument list is rejected with the store
untouched — but type validation is interleaved with the writes: each
pair is converted and stored in turn, so an invalid argument in a
later pair leaves the earlier pairs already stored. -/
theorem C4_amended (now : Nat) (db : Database) (args : List RespValue)
    (h : args = [] ∨ ¬ args.length % 2 = 0) :
    process_command now db
        (.Array (some (.BulkString (some (ascii "mset")) :: args))) =
      (resp_err (ascii "wrong number of arguments for 'mset' command"), db) ∧
    (∀ (a0 a1 : RespValue) (rest : List RespValue) (kb vb : Bytes),
      bulk_to_string_lossy a0 = some kb → bulk_to_bytes a1 = some vb →
      msetLoop now db (a0 :: a1 :: rest) =
        msetLoop now (Database.set now db kb vb none) rest) := by
  constructor
  · have hred : process_command now db
        (.Array (some (.BulkString (some (ascii "mset")) :: args))) =
        if args.isEmpty ∨ ¬ args.length % 2 = 0 then
          (resp_err (ascii "wrong number of arguments for 'mset' command"), db)
        else msetLoop now db args := rfl
    rw [hred, if_pos]
    rcases h with h | h
    · left; simp [h]
    · right; exact h
  · intro a0 a1 rest kb vb hk hv
    cases rest with
    | nil => simp [msetLoop, hk, hv]
    | cons x xs => simp [msetLoop, hk, hv]

/-- C4, witness for the amended theorem: a one-argument MSET is
rejected with the store unchanged. -/
theorem C4_witness :
    process_command 0 Database.new (.Array (some
      [.BulkString (some (ascii "mset")), .BulkString (some (ascii "a"))])) =
      (resp_err (ascii "wrong number of arguments for 'mset' command"),
        Database.new) :=
  (C4_amended 0 Database.new [.BulkString (some (ascii "a"))]
    (.inr (by decide))).1

/-- C5: codec round-trip — for every Protocol Value whose text variants
contain no embedded CR/LF (and are valid UTF-8; `respWf` also records
the `i64`/`usize` bounds inherent in the Rust types), decoding the
encoding yields exactly the value, for any decoder fuel at least its
nesting depth. -/
theorem C5_round_trip (v : RespValue) (fuel : Nat)
    (hwf : respWf v = true) (hfuel : respDepth v ≤ fuel) :
    readResp fuel v.encode = .ok (v, []) := by
  have h := readResp_encode fuel v [] hwf hfuel
  rwa [List.append_nil] at h

/-- C5, witness: a two-level value exercising every variant. -/
theorem C5_witness :
    respWf (RespValue.Array (some [.SimpleString (ascii "OK"), .Integer (-5),
      .BulkString (some (ascii "ab")), .BulkString none, .Array none])) = true ∧
    readResp 2 (RespValue.Array (some [.SimpleString (ascii "OK"), .Integer (-5),
      .BulkString (some (ascii "ab")), .BulkString none, .Array none])).encode =
      .ok (.Array (some [.SimpleString (ascii "OK"), .Integer (-5),
        .BulkString (some (ascii "ab")), .BulkString none, .Array none]), []) :=
  ⟨rfl, C5_round_trip _ 2 rfl (by decide)⟩

/-- C6: `ttl_seconds` returns −2 when the key is absent, and −2 with
removal of both the value and the deadline when the deadline has
passed; −1 (state unchanged) when the key is present with no deadline;
and otherwise the non-negative whole seconds remaining, rounded down,
with the state unchanged. -/
theorem C6_ttl (now : Nat) (db : Database) (k : Bytes) :
    (mapLookup db.store k = none → (Database.ttl_seconds now db k).1 = -2) ∧
    (∀ e : Nat, mapLookup db.expirations k = some e → e ≤ now →
      (Database.ttl_seconds now db k).1 = -2 ∧
      mapLookup (Database.ttl_seconds now db k).2.store k = none ∧
      mapLookup (Database.ttl_seconds now db k).2.expirations k = none) ∧
    ((mapLookup db.store k).isSome = true → mapLookup db.expirations k = none →
      Database.ttl_seconds now db k = (-1, db)) ∧
    (∀ e : Nat, (mapLookup db.store k).isSome = true →
      mapLookup db.expirations k = some e → now < e →
      Database.ttl_seconds now db k =
        ((((e - now) / 1000000000 : Nat) : Int), db) ∧
      0 ≤ (Database.ttl_seconds now db k).1) := by
  refine ⟨?_, ?_, ?_, ?_⟩
  · intro habs
    cases hexp : mapLookup db.expirations k with
    | none =>
        have hrem : Database.remove_if_expired now db k = (false, db) := by
          unfold Database.remove_if_expired
          rw [hexp]
        unfold Database.ttl_seconds
        rw [hrem]
        simp [habs]
    | some e =>
        by_cases hle : e ≤ now
        · have hrem : Database.remove_if_expired now db k =
              (true, ⟨mapErase db.store k, mapErase db.expirations k⟩) := by
            unfold Database.remove_if_expired
            rw [hexp]
            simp [hle]
          unfold Database.ttl_seconds
          rw [hrem]
          rfl
        · have hrem : Database.remove_if_expired now db k = (false, db) := by
            unfold Database.remove_if_expired
            rw [hexp]
            simp [hle]
          unfold Database.ttl_seconds
          rw [hrem]
          simp [habs]
  · intro e hexp hle
    have hrem : Database.remove_if_expired now db k =
        (true, ⟨mapErase db.store k, mapErase db.expirations k⟩) := by
      unfold Database.remove_if_expired
      rw [hexp]
      simp [hle]
    unfold Database.ttl_seconds
    rw [hrem]
    refine ⟨rfl, ?_, ?_⟩ <;> simp [mapLookup_erase]
  · intro hsome hexp
    cases hlk : mapLookup db.store k with
    | none => rw [hlk] at hsome; exact absurd hsome (by simp)
    | some v =>
        have hrem : Database.remove_if_expired now db k = (false, db) := by
          unfold Database.remove_if_expired
          rw [hexp]
        unfold Database.ttl_seconds
        rw [hrem]
        simp [hlk, hexp]
  · intro e hsome hexp hlt
    have hnle : ¬ e ≤ now := by omega
    have hrem : Database.remove_if_expired now db k = (false, db) := by
      unfold Database.remove_if_expired
      rw [hexp]
      simp [hnle]
    cases hlk : mapLookup db.store k with
    | none => rw [hlk] at hsome; exact absurd hsome (by simp)
    | some v =>
        have hfin : Database.ttl_seconds now db k =
            ((((e - now) / 1000000000 : Nat) : Int), db) := by
          unfold Database.ttl_seconds
          rw [hrem]
          simp [hlk, hexp, hnle]
        rw [hfin]
        exact ⟨rfl, Int.natCast_nonneg _⟩

/-- C6, witness: a deadline 2.5 s in the future reports 2 whole
seconds. -/
theorem C6_witness :
    Database.ttl_seconds 0 ⟨[(ascii "k", ascii "v")], [(ascii "k", 2500000000)]⟩
        (ascii "k") =
      ((((2500000000 - 0) / 1000000000 : Nat) : Int),
        ⟨[(ascii "k", ascii "v")], [(ascii "k", 2500000000)]⟩) ∧
    0 ≤ (Database.ttl_seconds 0
      ⟨[(ascii "k", ascii "v")], [(ascii "k", 2500000000)]⟩ (ascii "k")).1 :=
  (C6_ttl 0 ⟨[(ascii "k", ascii "v")], [(ascii "k", 2500000000)]⟩
    (ascii "k")).2.2.2 2500000000 rfl rfl (by omega)

/-- C7: every store operation preserves the invariant that a key with
no entry in the value map has no entry in the expiration map. -/
theorem C7_invariant (db : Database) (h : dbInvariant db) :
    (∀ (now : Nat) (k : Bytes), dbInvariant (Database.get now db k).2) ∧
    (∀ (now : Nat) (k v : Bytes) (ttl : Option Nat),
      dbInvariant (Database.set now db k v ttl)) ∧
    (∀ keys : List Bytes, dbInvariant (Database.del db keys).2) ∧
    (∀ (now : Nat) (keys : List Bytes),
      dbInvariant (Database.existsCount now db keys).2) ∧
    (∀ (now : Nat) (k : Bytes) (d : Int),
      dbInvariant (Database.incr_by now db k d).2) ∧
    (∀ (now : Nat) (k : Bytes) (s : Int),
      dbInvariant (Database.expire_seconds now db k s).2) ∧
    (∀ (now : Nat) (k : Bytes), dbInvariant (Database.ttl_seconds now db k).2) ∧
    dbInvariant (Database.flushdb db) :=
  ⟨fun now k => dbInvariant_get now db k h,
    fun now k v ttl => dbInvariant_set now db k v ttl h,
    fun keys => dbInvariant_del keys db h,
    fun now keys => dbInvariant_existsCount now keys db h,
    fun now k d => dbInvariant_incr_by now db k d h,
    fun now k s => dbInvariant_expire_seconds now db k s h,
    fun now k => dbInvariant_ttl_seconds now db k h,
    dbInvariant_flushdb db⟩

/-- C7, witness: the empty store satisfies the invariant and `set`
preserves it. -/
theorem C7_witness :
    dbInvariant Database.new ∧
    dbInvariant (Database.set 0 Database.new (ascii "k") (ascii "v") (some 5)) :=
  have hinv : dbInvariant Database.new := fun _ _ => rfl
  ⟨hinv, (C7_invariant Database.new hinv).2.1 0 (ascii "k") (ascii "v") (some 5)⟩

theorem readExactCrlf_badCrlf (data rest : Bytes) (a b : Nat)
    (h : ¬ (a = 13 ∧ b = 10)) :
    readExactCrlf data.length (data ++ a :: b :: rest) =
      .error "bulk string missing CRLF" := by
  unfold readExactCrlf
  have hlen : ¬ (data ++ a :: b :: rest).length < data.length := by
    simp only [List.length_append, List.length_cons]
    omega
  simp only [hlen, if_false]
  rw [List.drop_left]
  simp [h]

theorem readExactCrlf_short (n : Nat) (tail : Bytes)
    (h : tail.length < n + 2) : readExactCrlf n tail = .error "EOF" := by
  unfold readExactCrlf
  by_cases h1 : tail.length < n
  · simp [h1]
  · have hd : (tail.drop n).length < 2 := by
      simp only [List.length_drop]
      omega
    simp only [h1, if_false]
    cases htail : tail.drop n with
    | nil => rfl
    | cons x xs =>
        cases xs with
        | nil => rfl
        | cons y ys =>
            rw [htail] at hd
            simp only [List.length_cons] at hd
            exact absurd hd (by omega)

/-- C8: decoding a `$` frame — a negative length yields a null bulk
string consuming no payload; length `n` consumes exactly `n` payload
bytes plus a mandatory CRLF; two non-CRLF bytes after the payload are a
decode error; and an input too short to hold payload plus CRLF is an
EOF error. -/
theorem C8_bulk :
    (∀ (f : Nat) (neg : Int) (rest : Bytes), neg < 0 → i64Min ≤ neg →
      readResp (f + 1) (36 :: (intToDecimal neg ++ 13 :: 10 :: rest)) =
        .ok (.BulkString none, rest)) ∧
    (∀ (f : Nat) (data rest : Bytes), data.length ≤ 2 ^ 63 - 1 →
      readResp (f + 1) (36 :: (natToDecimal data.length ++
          13 :: 10 :: (data ++ 13 :: 10 :: rest))) =
        .ok (.BulkString (some data), rest)) ∧
    (∀ (f : Nat) (data rest : Bytes) (a b : Nat), data.length ≤ 2 ^ 63 - 1 →
      ¬ (a = 13 ∧ b = 10) →
      readResp (f + 1) (36 :: (natToDecimal data.length ++
          13 :: 10 :: (data ++ a :: b :: rest))) =
        .error "bulk string missing CRLF") ∧
    (∀ (f n : Nat) (tail : Bytes), n ≤ 2 ^ 63 - 1 → tail.length < n + 2 →
      readResp (f + 1) (36 :: (natToDecimal n ++ 13 :: 10 :: tail)) =
        .error "EOF") := by
  refine ⟨?_, ?_, ?_, ?_⟩
  · intro f neg rest hneg hlo
    simp only [readResp]
    rw [if_neg (by decide), if_neg (by decide), if_neg (by decide),
      if_pos trivial, readCrlfLine_spec _ _ (intToDecimal_noLF neg)]
    dsimp only [Except.bind]
    rw [fromUtf8Lossy_intToDecimal,
      parseI64_intToDecimal neg hlo (by unfold i64Max; omega)]
    dsimp only
    rw [if_pos hneg]
  · intro f data rest hlen
    simp only [readResp]
    rw [if_neg (by decide), if_neg (by decide), if_neg (by decide),
      if_pos trivial, readCrlfLine_spec _ _ (natToDecimal_noLF _)]
    dsimp only [Except.bind]
    rw [fromUtf8Lossy_natToDecimal, parseI64_natToDecimal _ hlen]
    dsimp only
    rw [if_neg (by omega : ¬ ((data.length : Int) < 0)), Int.toNat_natCast,
      readExactCrlf_spec]
    rfl
  · intro f data rest a b hlen hab
    simp only [readResp]
    rw [if_neg (by decide), if_neg (by decide), if_neg (by decide),
      if_pos trivial, readCrlfLine_spec _ _ (natToDecimal_noLF _)]
    dsimp only [Except.bind]
    rw [fromUtf8Lossy_natToDecimal, parseI64_natToDecimal _ hlen]
    dsimp only
    rw [if_neg (by omega : ¬ ((data.length : Int) < 0)), Int.toNat_natCast,
      readExactCrlf_badCrlf data rest a b hab]
    rfl
  · intro f n tail hn htail
    simp only [readResp]
    rw [if_neg (by decide), if_neg (by decide), if_neg (by decide),
      if_pos trivial, readCrlfLine_spec _ _ (natToDecimal_noLF _)]
    dsimp only [Except.bind]
    rw [fromUtf8Lossy_natToDecimal, parseI64_natToDecimal _ hn]
    dsimp only
    rw [if_neg (by omega : ¬ ((n : Int) < 0)), Int.toNat_natCast,
      readExactCrlf_short n tail htail]
    rfl

/-- C8, witness: `$-1`, a well-terminated 2-byte payload, a
mis-terminated one, and a truncated one. -/
theorem C8_witness :
    readResp 1 (36 :: (intToDecimal (-1) ++ 13 :: 10 :: [])) =
      .ok (.BulkString none, []) ∧
    readResp 1 (36 :: (natToDecimal (ascii "ab").length ++
        13 :: 10 :: (ascii "ab" ++ 13 :: 10 :: []))) =
      .ok (.BulkString (some (ascii "ab")), []) ∧
    readResp 1 (36 :: (natToDecimal (ascii "ab").length ++
        13 :: 10 :: (ascii "ab" ++ 0 :: 0 :: []))) =
      .error "bulk string missing CRLF" ∧
    readResp 1 (36 :: (natToDecimal 5 ++ 13 :: 10 :: [49, 50])) =
      .error "EOF" :=
  ⟨C8_bulk.1 0 (-1) [] (by decide) (by decide),
    C8_bulk.2.1 0 (ascii "ab") [] (by decide),
    C8_bulk.2.2.1 0 (ascii "ab") [] 0 0 (by decide) (by decide),
    C8_bulk.2.2.2 0 5 [49, 50] (by decide) (by decide)⟩

/-- C9: when the current value parses as an `i64` `c` and the key is
live, `incrBy(key, d)` succeeds, returns the saturated sum, stores its
decimal text, and the result stays inside the `i64` range. -/
theorem C9_incr (now : Nat) (db : Database) (k bytes : Bytes) (c d : Int)
    (hlk : mapLookup db.store k = some bytes)
    (hparse : parseI64 bytes = some c)
    (hlive : ∀ e : Nat, mapLookup db.expirations k = some e → now < e) :
    (Database.incr_by now db k d).1 = .ok (Database.satAddI64 c d) ∧
    mapLookup (Database.incr_by now db k d).2.store k =
      some (intToDecimal (Database.satAddI64 c d)) ∧
    i64Min ≤ Database.satAddI64 c d ∧ Database.satAddI64 c d ≤ i64Max := by
  have hrem : Database.remove_if_expired now db k = (false, db) := by
    unfold Database.remove_if_expired
    cases hexp : mapLookup db.expirations k with
    | none => rfl
    | some e =>
        have hlt := hlive e hexp
        simp [show ¬ e ≤ now by omega]
  have hvalid : utf8Valid bytes = true :=
    utf8Valid_of_ascii bytes fun b hb =>
      parseI64_digits bytes c hparse b hb
  unfold Database.incr_by
  rw [hrem]
  dsimp only
  rw [hlk]
  simp only [hvalid, if_true, hparse]
  refine ⟨by trivial, ?_, ?_, ?_⟩
  · rw [mapLookup_insert]
    simp
  · exact le_max_left _ _
  · exact max_le (by unfold i64Min i64Max; omega) (min_le_left _ _)

/-- C9, witness: incrementing a stored `"5"` by 3 yields 8. -/
theorem C9_witness :
    (Database.incr_by 0 ⟨[(ascii "k", ascii "5")], []⟩ (ascii "k") 3).1 =
      .ok (Database.satAddI64 5 3) ∧
    mapLookup (Database.incr_by 0 ⟨[(ascii "k", ascii "5")], []⟩
        (ascii "k") 3).2.store (ascii "k") =
      some (intToDecimal (Database.satAddI64 5 3)) ∧
    i64Min ≤ Database.satAddI64 5 3 ∧ Database.satAddI64 5 3 ≤ i64Max :=
  C9_incr 0 ⟨[(ascii "k", ascii "5")], []⟩ (ascii "k") (ascii "5") 5 3 rfl rfl
    (fun e he => by simp [mapLookup] at he)

/-- C10: DEL and EXISTS convert each argument with
`bulk_to_string_lossy` and silently drop any argument that is neither a
non-null BulkString nor a SimpleString: the count is computed over the
convertible arguments only, and if none is convertible the reply is
`Integer 0` with the store untouched. -/
theorem C10_skip (now : Nat) (db : Database) (args : List RespValue)
    (hne : ¬ args = []) :
    process_command now db
        (.Array (some (.BulkString (some (ascii "del")) :: args))) =
      (.Integer ((Database.del db (args.filterMap bulk_to_string_lossy)).1),
        (Database.del db (args.filterMap bulk_to_string_lossy)).2) ∧
    process_command now db
        (.Array (some (.BulkString (some (ascii "exists")) :: args))) =
      (.Integer
          ((Database.existsCount now db (args.filterMap bulk_to_string_lossy)).1),
        (Database.existsCount now db (args.filterMap bulk_to_string_lossy)).2) ∧
    ((∀ a ∈ args, bulk_to_string_lossy a = none) →
      process_command now db
          (.Array (some (.BulkString (some (ascii "del")) :: args))) =
        (.Integer 0, db) ∧
      process_command now db
          (.Array (some (.BulkString (some (ascii "exists")) :: args))) =
        (.Integer 0, db)) := by
  have hempty : args.isEmpty = false := by
    cases args with
    | nil => exact absurd rfl hne
    | cons a r => rfl
  have hdel : process_command now db
      (.Array (some (.BulkString (some (ascii "del")) :: args))) =
      if args.isEmpty then
        (resp_err (ascii "wrong number of arguments for 'del' command"), db)
      else
        (.Integer ((Database.del db (args.filterMap bulk_to_string_lossy)).1),
          (Database.del db (args.filterMap bulk_to_string_lossy)).2) := rfl
  have hex : process_command now db
      (.Array (some (.BulkString (some (ascii "exists")) :: args))) =
      if args.isEmpty then
        (resp_err (ascii "wrong number of arguments for 'exists' command"), db)
      else
        (.Integer
            ((Database.existsCount now db (args.filterMap bulk_to_string_lossy)).1),
          (Database.existsCount now db (args.filterMap bulk_to_string_lossy)).2) :=
    rfl
  refine ⟨?_, ?_, ?_⟩
  · rw [hdel, hempty]
    rfl
  · rw [hex, hempty]
    rfl
  · intro hall
    have hfm : args.filterMap bulk_to_string_lossy = [] :=
      List.filterMap_eq_nil_iff.mpr hall
    constructor
    · rw [hdel, hempty, hfm]
      rfl
    · rw [hex, hempty, hfm]
      rfl

/-- C10, witness: a DEL and an EXISTS whose single argument is an
Integer reply `Integer 0` and leave the store unchanged. -/
theorem C10_witness :
    process_command 0 Database.new
        (.Array (some [.BulkString (some (ascii "del")), .Integer 7])) =
      (.Integer 0, Database.new) ∧
    process_command 0 Database.new
        (.Array (some [.BulkString (some (ascii "exists")), .Integer 7])) =
      (.Integer 0, Database.new) :=
  (C10_skip 0 Database.new [.Integer 7] (by simp)).2.2
    (fun a ha => by
      rcases List.mem_singleton.mp ha with rfl
      rfl)

end RustCache
